import Mathlib

/-!
Verification of the grid-search root approximation implemented in
`demo_16_Solving_Equations/scipy_solving.py`.

The script's only self-contained algorithm is the grid search
(lines 78-126): it builds a sample grid with `np.arange(start, stop, step)`,
evaluates a scalar function on every grid point, takes `argmin` of the
absolute values, and indexes the grid at that position.  Numbers are
modelled by `ℚ` (the script's floats, taken at exact-arithmetic semantics).
-/

set_option allowUnsafeReducibility true
attribute [semireducible] Rat.add Rat.mul Rat.div Rat.sub Rat.neg Rat.inv

namespace ScipySolving

/-- Python `quad_fn(x, a, b, c) = a*x**2 + b*x + c` (scipy_solving.py
lines 79-81). -/
def quad_fn (x a b c : ℚ) : ℚ := a * x ^ 2 + b * x + c

/-- Model of `np.arange(start, stop, step)` for the positive-step case used
by the script (line 88): the arithmetic sequence `start + i*step` with
`⌈(stop-start)/step⌉` terms (empty when that count is nonpositive).
Non-positive steps, which the script never uses, give the empty grid. -/
def arange (start stop step : ℚ) : List ℚ :=
  if 0 < step then
    (List.range (⌈(stop - start) / step⌉).toNat).map (fun i : ℕ => start + (i : ℚ) * step)
  else []

/-- Linear scan of `numpy.ndarray.argmin` (line 112): walk the array keeping
the current best index `bi` and best value `bv`, updating only on a strictly
smaller value, so the first occurrence of the minimum wins. -/
def argminAux : List ℚ → ℕ → ℕ → ℚ → ℕ
  | [], _, bi, _ => bi
  | y :: ys, j, bi, bv =>
    if y < bv then argminAux ys (j + 1) j y else argminAux ys (j + 1) bi bv

/-- Model of `ndarray.argmin` (line 112): index of the first minimal element;
`none` on the empty array, where numpy raises instead of returning. -/
def argmin? : List ℚ → Option ℕ
  | [] => none
  | x :: xs => some (argminAux xs 1 0 x)

/-- Python `abs_f_grid = abs(f_grid)` (line 111). -/
def abs_f_grid (f_grid : List ℚ) : List ℚ := f_grid.map (fun v => |v|)

/-- Python `x_root_index = abs_f_grid.argmin()` (line 112). -/
def x_root_index (f_grid : List ℚ) : Option ℕ := argmin? (abs_f_grid f_grid)

/-- Python `x_root_1 = x_grid[x_root_index]` (line 113): the stepwise form
built from the named intermediates of lines 111-112. -/
def x_root_1 (x_grid f_grid : List ℚ) : Option ℚ :=
  (x_root_index f_grid).map (fun i => x_grid.getD i 0)

/-- Python `x_root_2 = x_grid[abs(f_grid).argmin()]` (line 126): the
single-expression form. -/
def x_root_2 (x_grid f_grid : List ℚ) : Option ℚ :=
  (argmin? (f_grid.map (fun v => |v|))).map (fun i => x_grid.getD i 0)

/-- The grid root approximation of lines 111-118 packaged as one function:
evaluate `f` on the grid, locate the first index with minimal `|f|`, and
return `(root, residual, index)` (the script prints the residual
`quad_fn(x_root_1, a, b, c)` at line 118). -/
def gridRoot (f : ℚ → ℚ) (grid : List ℚ) : Option (ℚ × ℚ × ℕ) :=
  match x_root_index (grid.map f) with
  | none => none
  | some i => some (grid.getD i 0, (grid.map f).getD i 0, i)

/-! ### Spec-modelled contract

The spec (§4.1, §7) describes a function `find_root_by_grid` with input
validation and named errors.  The repository only contains the inline grid
search of lines 88-126; the validating wrapper exists nowhere in the source,
so it is modelled here from the spec's words, on top of the script's grid
and argmin. -/

/-- Modelled from the spec: the error kinds of §4.1/§7, which the repository
never defines. -/
inductive GridError where
  | InvalidRangeError
  | InvalidStepError
  | EmptyGridError
  | NonFiniteValueError
  deriving DecidableEq

/-- Modelled from the spec: a sampled value that is either a finite number
or non-finite (NaN or an infinity).  The repository never defines such a
wrapper; §7's `NonFiniteValueError` contract needs it. -/
inductive FVal where
  | fin (q : ℚ)
  | nonfinite
  deriving DecidableEq

/-- Modelled from the spec: the magnitude used by the minimization.
Non-finite values are excluded, i.e. treated as `+∞` (`none`). -/
def magnitude : FVal → Option ℚ
  | .fin q => some |q|
  | .nonfinite => none

/-- Modelled from the spec: first-occurrence argmin over magnitudes in which
`none` stands for `+∞` (excluded points); `none` overall when no finite
magnitude exists. -/
def argminExcl : List (Option ℚ) → Option (ℕ × ℚ)
  | [] => none
  | none :: xs => (argminExcl xs).map (fun p => (p.1 + 1, p.2))
  | some x :: xs =>
    match argminExcl xs with
    | none => some (0, x)
    | some (i, v) => if x ≤ v then some (0, x) else some (i + 1, v)

/-- Modelled from the spec: `find_root_by_grid(f, start, stop, step)` of
§4.1/§7, absent from the repository.  Validation order follows the spec's
listing: range check, then step check, then the empty-grid check; then the
grid search runs on the script's `np.arange` grid, failing with
`NonFiniteValueError` exactly when every sampled value is non-finite. -/
def find_root_by_grid (f : ℚ → FVal) (start stop step : ℚ) :
    Except GridError (ℚ × FVal × ℕ) :=
  if stop ≤ start then .error .InvalidRangeError
  else if step ≤ 0 then .error .InvalidStepError
  else if stop - start ≤ step then .error .EmptyGridError
  else
    match argminExcl ((arange start stop step).map (fun x => magnitude (f x))) with
    | none => .error .NonFiniteValueError
    | some (i, _) =>
      .ok ((arange start stop step).getD i 0, f ((arange start stop step).getD i 0), i)

/-! ### Specification lemmas for `argminAux` / `argmin?` -/

theorem argminAux_spec (l : List ℚ) : ∀ (j bi : ℕ) (bv : ℚ),
    (argminAux l j bi bv = bi ∧ ∀ k, k < l.length → bv ≤ l.getD k 0) ∨
    (∃ k, k < l.length ∧ argminAux l j bi bv = j + k ∧ l.getD k 0 < bv ∧
      (∀ m, m < l.length → l.getD k 0 ≤ l.getD m 0) ∧
      (∀ m, m < k → l.getD k 0 < l.getD m 0)) := by
  induction l with
  | nil =>
    intro j bi bv
    left
    exact ⟨rfl, fun k hk => by simp at hk⟩
  | cons y ys ih =>
    intro j bi bv
    by_cases hy : y < bv
    · have h1 : argminAux (y :: ys) j bi bv = argminAux ys (j + 1) j y := by
        simp [argminAux, hy]
      rcases ih (j + 1) j y with ⟨heq, hmin⟩ | ⟨k, hk, heq, hlt, hmin, hfirst⟩
      · right
        refine ⟨0, by simp, ?_, by simpa using hy, ?_, ?_⟩
        · rw [h1, heq]; omega
        · intro m hm
          cases m with
          | zero => simp
          | succ m' =>
            simp only [List.getD_cons_zero, List.getD_cons_succ]
            exact hmin m' (by simpa using hm)
        · intro m hm; omega
      · right
        refine ⟨k + 1, by simpa using hk, ?_, ?_, ?_, ?_⟩
        · rw [h1, heq]; omega
        · simpa [List.getD_cons_succ] using lt_trans hlt hy
        · intro m hm
          cases m with
          | zero =>
            simpa [List.getD_cons_succ, List.getD_cons_zero] using le_of_lt hlt
          | succ m' =>
            simp only [List.getD_cons_succ]
            exact hmin m' (by simpa using hm)
        · intro m hm
          cases m with
          | zero => simpa [List.getD_cons_succ, List.getD_cons_zero] using hlt
          | succ m' =>
            simp only [List.getD_cons_succ]
            exact hfirst m' (by omega)
    · have h1 : argminAux (y :: ys) j bi bv = argminAux ys (j + 1) bi bv := by
        simp [argminAux, hy]
      push_neg at hy
      rcases ih (j + 1) bi bv with ⟨heq, hmin⟩ | ⟨k, hk, heq, hlt, hmin, hfirst⟩
      · left
        refine ⟨by rw [h1, heq], ?_⟩
        intro k hk
        cases k with
        | zero => simpa using hy
        | succ k' =>
          simp only [List.getD_cons_succ]
          exact hmin k' (by simpa using hk)
      · right
        refine ⟨k + 1, by simpa using hk, ?_, ?_, ?_, ?_⟩
        · rw [h1, heq]; omega
        · simpa [List.getD_cons_succ] using hlt
        · intro m hm
          cases m with
          | zero =>
            simpa [List.getD_cons_succ, List.getD_cons_zero] using
              le_of_lt (lt_of_lt_of_le hlt hy)
          | succ m' =>
            simp only [List.getD_cons_succ]
            exact hmin m' (by simpa using hm)
        · intro m hm
          cases m with
          | zero =>
            simpa [List.getD_cons_succ, List.getD_cons_zero] using
              lt_of_lt_of_le hlt hy
          | succ m' =>
            simp only [List.getD_cons_succ]
            exact hfirst m' (by omega)

theorem argmin?_spec {l : List ℚ} {i : ℕ} (h : argmin? l = some i) :
    i < l.length ∧
    (∀ j, j < l.length → l.getD i 0 ≤ l.getD j 0) ∧
    (∀ j, j < i → l.getD i 0 < l.getD j 0) := by
  cases l with
  | nil => simp [argmin?] at h
  | cons x xs =>
    simp only [argmin?, Option.some.injEq] at h
    rcases argminAux_spec xs 1 0 x with ⟨heq, hmin⟩ | ⟨k, hk, heq, hlt, hmin, hfirst⟩
    · have hi : i = 0 := by rw [← h, heq]
      subst hi
      refine ⟨by simp, ?_, by omega⟩
      intro j hj
      cases j with
      | zero => simp
      | succ j' =>
        simp only [List.getD_cons_zero, List.getD_cons_succ]
        exact hmin j' (by simpa using hj)
    · have hi : i = k + 1 := by rw [← h, heq]; omega
      subst hi
      refine ⟨by simpa using hk, ?_, ?_⟩
      · intro j hj
        cases j with
        | zero =>
          simpa [List.getD_cons_succ, List.getD_cons_zero] using le_of_lt hlt
        | succ j' =>
          simp only [List.getD_cons_succ]
          exact hmin j' (by simpa using hj)
      · intro j hj
        cases j with
        | zero => simpa [List.getD_cons_succ, List.getD_cons_zero] using hlt
        | succ j' =>
          simp only [List.getD_cons_succ]
          exact hfirst j' (by omega)

theorem argmin?_eq_none {l : List ℚ} : argmin? l = none ↔ l = [] := by
  cases l <;> simp [argmin?]

/-! ### List access helpers -/

theorem getD_map_of_lt {α β : Type} (f : α → β) (l : List α) :
    ∀ {i : ℕ}, i < l.length → ∀ (d : β) (d' : α), (l.map f).getD i d = f (l.getD i d') := by
  induction l with
  | nil => intro i hi; simp at hi
  | cons x xs ih =>
    intro i hi d d'
    cases i with
    | zero => simp
    | succ i' =>
      simp only [List.map_cons, List.getD_cons_succ]
      exact ih (by simpa using hi) d d'

/-! ### Properties of the `np.arange` grid -/

theorem arange_length (start stop step : ℚ) (h : 0 < step) :
    (arange start stop step).length = (⌈(stop - start) / step⌉).toNat := by
  rw [arange, if_pos h, List.length_map, List.length_range]

theorem arange_getD (start stop step : ℚ) :
    ∀ {i : ℕ}, i < (arange start stop step).length →
      (arange start stop step).getD i 0 = start + (i : ℚ) * step := by
  intro i hi
  by_cases h : 0 < step
  · simp only [arange, if_pos h] at hi ⊢
    simp only [List.length_map, List.length_range] at hi
    rw [List.getD_eq_getElem _ _ (by simpa using hi),
      List.getElem_map, List.getElem_range]
  · simp [arange, h] at hi

theorem arange_mem_range (start stop step : ℚ) (hstep : 0 < step) :
    ∀ {i : ℕ}, i < (arange start stop step).length →
      start ≤ (arange start stop step).getD i 0 ∧
      (arange start stop step).getD i 0 < stop := by
  intro i hi
  rw [arange_getD start stop step hi]
  constructor
  · have : 0 ≤ (i : ℚ) * step := mul_nonneg (by positivity) (le_of_lt hstep)
    linarith
  · rw [arange_length start stop step hstep] at hi
    have h1 : ((i : ℕ) : ℤ) < ⌈(stop - start) / step⌉ := Int.lt_toNat.mp hi
    have h2 : ((i : ℕ) : ℚ) < (stop - start) / step := by
      have := Int.lt_ceil.mp h1
      push_cast at this
      exact this
    have h3 : (i : ℚ) * step < stop - start := (lt_div_iff₀ hstep).mp h2
    linarith

theorem arange_ne_nil {start stop step : ℚ} (h1 : start < stop) (h2 : 0 < step) :
    arange start stop step ≠ [] := by
  have hq : 0 < (stop - start) / step := div_pos (by linarith) h2
  have hc : 0 < ⌈(stop - start) / step⌉ := Int.ceil_pos.mpr hq
  intro habs
  have hlen := congrArg List.length habs
  rw [arange_length start stop step h2] at hlen
  simp only [List.length_nil] at hlen
  omega

/-! ### Properties of the packaged grid search `gridRoot` -/

theorem abs_f_grid_map (f : ℚ → ℚ) (grid : List ℚ) :
    abs_f_grid (grid.map f) = grid.map (fun x => |f x|) := by
  simp [abs_f_grid, List.map_map, Function.comp]

theorem gridRoot_eq_some {f : ℚ → ℚ} {grid : List ℚ} {r v : ℚ} {i : ℕ}
    (h : gridRoot f grid = some (r, v, i)) :
    i < grid.length ∧ r = grid.getD i 0 ∧ v = f r ∧
    (∀ j, j < grid.length → |f r| ≤ |f (grid.getD j 0)|) ∧
    (∀ j, j < i → |f r| < |f (grid.getD j 0)|) := by
  unfold gridRoot at h
  cases hx : x_root_index (grid.map f) with
  | none => rw [hx] at h; simp at h
  | some i' =>
    rw [hx] at h
    simp only [Option.some.injEq, Prod.mk.injEq] at h
    obtain ⟨hr, hv, hieq⟩ := h
    rw [x_root_index, abs_f_grid_map] at hx
    obtain ⟨hlen, hmin, hfirst⟩ := argmin?_spec hx
    rw [List.length_map] at hlen
    have hA : ∀ j, j < grid.length →
        (grid.map (fun x => |f x|)).getD j 0 = |f (grid.getD j 0)| :=
      fun j hj => getD_map_of_lt (fun x => |f x|) grid hj 0 0
    have hlen' : i < grid.length := hieq ▸ hlen
    have hr' : r = grid.getD i 0 := by rw [← hr, hieq]
    have hv' : v = f r := by
      rw [← hv, hr', ← hieq]
      exact getD_map_of_lt f grid hlen 0 0
    refine ⟨hlen', hr', hv', ?_, ?_⟩
    · intro j hj
      have hm := hmin j (by simpa using hj)
      rw [hA i' hlen, hA j hj] at hm
      rw [hr', ← hieq]
      exact hm
    · intro j hj
      have hj' : j < i' := hieq ▸ hj
      have hm := hfirst j hj'
      rw [hA i' hlen, hA j (lt_trans hj' hlen)] at hm
      rw [hr', ← hieq]
      exact hm

theorem gridRoot_total (f : ℚ → ℚ) {grid : List ℚ} (h : grid ≠ []) :
    ∃ r v i, gridRoot f grid = some (r, v, i) := by
  unfold gridRoot
  cases hx : x_root_index (grid.map f) with
  | some i => exact ⟨_, _, _, rfl⟩
  | none =>
    rw [x_root_index, argmin?_eq_none, abs_f_grid_map] at hx
    exact absurd (List.map_eq_nil_iff.mp hx) h

/-! ### Properties of the spec-modelled exclusion argmin -/

theorem argminExcl_cons_some (x : ℚ) (xs : List (Option ℚ)) :
    argminExcl (some x :: xs) ≠ none := by
  cases hxs : argminExcl xs with
  | none => simp [argminExcl, hxs]
  | some p =>
    obtain ⟨i, v⟩ := p
    by_cases hle : x ≤ v <;> simp [argminExcl, hxs, hle]

theorem argminExcl_eq_none : ∀ {l : List (Option ℚ)},
    argminExcl l = none ↔ ∀ x ∈ l, x = none := by
  intro l
  induction l with
  | nil => simp [argminExcl]
  | cons o xs ih =>
    cases o with
    | none =>
      simp only [argminExcl, Option.map_eq_none']
      rw [ih]
      constructor
      · intro hall x hx
        rcases List.mem_cons.mp hx with hx | hx
        · exact hx
        · exact hall x hx
      · intro hall x hx
        exact hall x (List.mem_cons_of_mem _ hx)
    | some x =>
      constructor
      · intro habs
        exact absurd habs (argminExcl_cons_some x xs)
      · intro hall
        exact absurd (hall (some x) (List.mem_cons_self _ _)) (by simp)

theorem argminExcl_spec : ∀ {l : List (Option ℚ)} {i : ℕ} {v : ℚ},
    argminExcl l = some (i, v) →
    i < l.length ∧ l.getD i none = some v ∧
    (∀ j, j < l.length → ∀ q, l.getD j none = some q → v ≤ q) := by
  intro l
  induction l with
  | nil => intro i v h; simp [argminExcl] at h
  | cons o xs ih =>
    intro i v h
    cases o with
    | none =>
      simp only [argminExcl, Option.map_eq_some'] at h
      obtain ⟨⟨i', v'⟩, hx, hshift⟩ := h
      simp only [Prod.mk.injEq] at hshift
      obtain ⟨hi, hv⟩ := hshift
      subst hi; subst hv
      obtain ⟨hlen, hget, hmin⟩ := ih hx
      refine ⟨by simpa using hlen, by simpa using hget, ?_⟩
      intro j hj q hq
      cases j with
      | zero => simp [List.getD_cons_zero] at hq
      | succ j' =>
        simp only [List.getD_cons_succ] at hq
        exact hmin j' (by simpa using hj) q hq
    | some x =>
      simp only [argminExcl] at h
      cases hxs : argminExcl xs with
      | none =>
        rw [hxs] at h
        simp only [Option.some.injEq, Prod.mk.injEq] at h
        obtain ⟨hi, hv⟩ := h
        subst hi; subst hv
        refine ⟨by simp, by simp, ?_⟩
        intro j hj q hq
        cases j with
        | zero =>
          simp only [List.getD_cons_zero, Option.some.injEq] at hq
          exact le_of_eq hq
        | succ j' =>
          simp only [List.getD_cons_succ] at hq
          have hall := argminExcl_eq_none.mp hxs
          have hj' : j' < xs.length := by simpa using hj
          have : xs.getD j' none = xs[j'] := List.getD_eq_getElem xs none hj'
          rw [this] at hq
          exact absurd (hall _ (xs.getElem_mem hj')) (by simp [hq])
      | some p =>
        obtain ⟨i', v'⟩ := p
        rw [hxs] at h
        dsimp only at h
        obtain ⟨hlen, hget, hmin⟩ := ih hxs
        by_cases hle : x ≤ v'
        · rw [if_pos hle] at h
          simp only [Option.some.injEq, Prod.mk.injEq] at h
          obtain ⟨hi, hv⟩ := h
          subst hi; subst hv
          refine ⟨by simp, by simp, ?_⟩
          intro j hj q hq
          cases j with
          | zero =>
            simp only [List.getD_cons_zero, Option.some.injEq] at hq
            exact le_of_eq hq
          | succ j' =>
            simp only [List.getD_cons_succ] at hq
            exact le_trans hle (hmin j' (by simpa using hj) q hq)
        · rw [if_neg hle] at h
          push_neg at hle
          simp only [Option.some.injEq, Prod.mk.injEq] at h
          obtain ⟨hi, hv⟩ := h
          subst hi; subst hv
          refine ⟨by simpa using hlen, by simpa using hget, ?_⟩
          intro j hj q hq
          cases j with
          | zero =>
            simp only [List.getD_cons_zero, Option.some.injEq] at hq
            exact le_of_lt (lt_of_lt_of_le hle (le_of_eq hq))
          | succ j' =>
            simp only [List.getD_cons_succ] at hq
            exact hmin j' (by simpa using hj) q hq

/-! ### The claims -/

/-- C1: for every scalar function `f` and every non-empty sample grid, the
grid root approximation returns `(root, residual, index)` where the index
minimizes `|f(grid[i])|`, `root = grid[index]`, `residual = f(root)`, and
`|f(root)| ≤ |f(grid[j])|` for every grid index `j`. -/
theorem C1_gridRoot_minimizes (f : ℚ → ℚ) (grid : List ℚ) (hne : grid ≠ []) :
    ∃ r v i, gridRoot f grid = some (r, v, i) ∧
      i < grid.length ∧ r = grid.getD i 0 ∧ v = f r ∧
      ∀ j, j < grid.length → |f r| ≤ |f (grid.getD j 0)| := by
  obtain ⟨r, v, i, hsome⟩ := gridRoot_total f hne
  obtain ⟨hlen, hr, hv, hmin, _⟩ := gridRoot_eq_some hsome
  exact ⟨r, v, i, hsome, hlen, hr, hv, hmin⟩

/-- Witness for C1 at `f = id` and grid `[1, -1/2, 2]`. -/
theorem C1_witness :
    ∃ r v i, gridRoot (fun x : ℚ => x) [1, -1/2, 2] = some (r, v, i) ∧
      i < ([1, -1/2, 2] : List ℚ).length ∧ r = ([1, -1/2, 2] : List ℚ).getD i 0 ∧
      v = r ∧
      ∀ j, j < ([1, -1/2, 2] : List ℚ).length →
        |r| ≤ |([1, -1/2, 2] : List ℚ).getD j 0| :=
  C1_gridRoot_minimizes (fun x : ℚ => x) [1, -1/2, 2] (by simp)

/-- C2 (amended): for `start < stop` and `0 < step < stop - start`, the
`np.arange` grid has exactly `⌈(stop-start)/step⌉` elements (not
`⌊(stop-start)/step⌋` as claimed: `np.arange` rounds the count up), its
`i`-th element is `start + i*step`, and every element lies in
`[start, stop)`. -/
theorem C2_arange_spec (start stop step : ℚ) (h1 : start < stop) (h2 : 0 < step)
    (h3 : step < stop - start) :
    (arange start stop step).length = (⌈(stop - start) / step⌉).toNat ∧
    (∀ i, i < (arange start stop step).length →
      (arange start stop step).getD i 0 = start + (i : ℚ) * step) ∧
    (∀ i, i < (arange start stop step).length →
      start ≤ (arange start stop step).getD i 0 ∧
      (arange start stop step).getD i 0 < stop) :=
  ⟨arange_length start stop step h2,
    fun _ hi => arange_getD start stop step hi,
    fun _ hi => arange_mem_range start stop step h2 hi⟩

/-- Counterexample to C2 as stated: at `(start, stop, step) = (0, 1, 3/10)`
(which satisfies the claim's preconditions) the grid has 4 elements,
while `⌊(stop-start)/step⌋ = ⌊10/3⌋ = 3`. -/
theorem C2_counterexample :
    ¬ ((arange 0 1 (3/10)).length = (⌊((1 : ℚ) - 0) / (3/10)⌋).toNat) := by
  have hlen : (arange 0 1 (3/10)).length = 4 := by decide
  have hfl : (⌊((1 : ℚ) - 0) / (3/10)⌋) = 3 := by
    rw [Int.floor_eq_iff]
    norm_num
  rw [hlen, hfl]
  decide

/-- Witness for C2's amended theorem at `(0, 1, 3/10)`. -/
theorem C2_witness :
    (arange 0 1 (3/10)).length = (⌈((1 : ℚ) - 0) / (3/10)⌉).toNat ∧
    (∀ i, i < (arange 0 1 (3/10)).length →
      (arange 0 1 (3/10)).getD i 0 = 0 + (i : ℚ) * (3/10)) ∧
    (∀ i, i < (arange 0 1 (3/10)).length →
      (0 : ℚ) ≤ (arange 0 1 (3/10)).getD i 0 ∧ (arange 0 1 (3/10)).getD i 0 < 1) :=
  C2_arange_spec 0 1 (3/10) (by norm_num) (by norm_num) (by norm_num)

/-- C4: when the minimal `|f(grid[i])|` is attained at several indices, the
returned index is the lowest one (first occurrence in scan order), and any
index that is a first minimizer equals the returned one, so the result is
determined by the grid alone and not by any evaluation order. -/
theorem C4_first_occurrence (f : ℚ → ℚ) (grid : List ℚ) (r v : ℚ) (i : ℕ)
    (h : gridRoot f grid = some (r, v, i)) :
    (∀ j, j < grid.length → |f (grid.getD i 0)| = |f (grid.getD j 0)| → i ≤ j) ∧
    (∀ i', i' < grid.length →
      (∀ j, j < grid.length → |f (grid.getD i' 0)| ≤ |f (grid.getD j 0)|) →
      (∀ j, j < i' → |f (grid.getD i' 0)| < |f (grid.getD j 0)|) → i' = i) := by
  obtain ⟨hlen, hr, hv, hmin, hfirst⟩ := gridRoot_eq_some h
  rw [hr] at hmin hfirst
  constructor
  · intro j hj heq
    by_contra hcon
    push_neg at hcon
    exact absurd heq (ne_of_lt (hfirst j hcon))
  · intro i' hlen' hmin' hfirst'
    rcases lt_trichotomy i' i with hlt | heq | hgt
    · have ha := hfirst i' hlt
      have hb := hmin' i hlen
      linarith
    · exact heq
    · have ha := hfirst' i hgt
      have hb := hmin i' hlen'
      linarith

/-- C3: the spec-modelled validation fails with `InvalidRangeError` exactly
when `start ≥ stop`, with `InvalidStepError` exactly when `start < stop`
yet `step ≤ 0`, with `EmptyGridError` exactly when `start < stop` and
`0 < step` yet `step ≥ stop - start`, and returns a result whenever all
three preconditions hold (for a finite-valued scalar function). -/
theorem C3_validation (f : ℚ → ℚ) (start stop step : ℚ) :
    (find_root_by_grid (fun x => FVal.fin (f x)) start stop step =
        Except.error GridError.InvalidRangeError ↔ stop ≤ start) ∧
    (find_root_by_grid (fun x => FVal.fin (f x)) start stop step =
        Except.error GridError.InvalidStepError ↔ start < stop ∧ step ≤ 0) ∧
    (find_root_by_grid (fun x => FVal.fin (f x)) start stop step =
        Except.error GridError.EmptyGridError ↔
        start < stop ∧ 0 < step ∧ stop - start ≤ step) ∧
    (start < stop → 0 < step → step < stop - start →
      ∃ p, find_root_by_grid (fun x => FVal.fin (f x)) start stop step = Except.ok p) := by
  by_cases hR : stop ≤ start
  · simp only [find_root_by_grid]
    rw [if_pos hR]
    refine ⟨⟨fun _ => hR, fun _ => rfl⟩, ?_, ?_, ?_⟩
    · constructor
      · intro hab; simp at hab
      · rintro ⟨hl, _⟩; linarith
    · constructor
      · intro hab; simp at hab
      · rintro ⟨hl, _⟩; linarith
    · intro hl _ _; linarith
  · push_neg at hR
    by_cases hS : step ≤ 0
    · simp only [find_root_by_grid]
      rw [if_neg (not_le.mpr hR), if_pos hS]
      refine ⟨?_, ⟨fun _ => ⟨hR, hS⟩, fun _ => rfl⟩, ?_, ?_⟩
      · constructor
        · intro hab; simp at hab
        · intro hl; linarith
      · constructor
        · intro hab; simp at hab
        · rintro ⟨_, h2, _⟩; linarith
      · intro _ h2 _; linarith
    · push_neg at hS
      by_cases hE : stop - start ≤ step
      · simp only [find_root_by_grid]
        rw [if_neg (not_le.mpr hR), if_neg (not_le.mpr hS), if_pos hE]
        refine ⟨?_, ?_, ⟨fun _ => ⟨hR, hS, hE⟩, fun _ => rfl⟩, ?_⟩
        · constructor
          · intro hab; simp at hab
          · intro hl; linarith
        · constructor
          · intro hab; simp at hab
          · rintro ⟨_, h2⟩; linarith
        · intro _ _ h3; linarith
      · push_neg at hE
        have hne := arange_ne_nil hR hS
        obtain ⟨x, hx⟩ := List.exists_mem_of_ne_nil _ hne
        cases hm : argminExcl
            ((arange start stop step).map fun y => magnitude (FVal.fin (f y))) with
        | none =>
          exfalso
          have hall := argminExcl_eq_none.mp hm
          have hmem := List.mem_map_of_mem (fun y => magnitude (FVal.fin (f y))) hx
          have := hall _ hmem
          simp [magnitude] at this
        | some p =>
          obtain ⟨i, v⟩ := p
          simp only [find_root_by_grid]
          rw [if_neg (not_le.mpr hR), if_neg (not_le.mpr hS), if_neg (not_le.mpr hE), hm]
          refine ⟨?_, ?_, ?_, ?_⟩
          · constructor
            · intro hab; simp at hab
            · intro hl; linarith
          · constructor
            · intro hab; simp at hab
            · rintro ⟨_, h2⟩; linarith
          · constructor
            · intro hab; simp at hab
            · rintro ⟨_, _, h3⟩; linarith
          · intro _ _ _; exact ⟨_, rfl⟩

/-- Witness for C3: at `(0, 1, 1/4)` with `f(x) = x - 1/2` the validated
search returns a result. -/
theorem C3_witness :
    ∃ p, find_root_by_grid (fun x => FVal.fin (x - 1/2)) 0 1 (1/4) = Except.ok p :=
  (C3_validation (fun x => x - 1/2) 0 1 (1/4)).2.2.2
    (by norm_num) (by norm_num) (by norm_num)

/-- C5: under valid `(start, stop, step)`, the spec-modelled search fails
with `NonFiniteValueError` when `f` is non-finite at every grid point; when
at least one grid value is finite it returns a result whose index minimizes
the magnitude over the finite-valued points only, non-finite points being
excluded from the minimization. -/
theorem C5_nonfinite_policy (f : ℚ → FVal) (start stop step : ℚ)
    (h1 : start < stop) (h2 : 0 < step) (h3 : step < stop - start) :
    ((∀ x, x ∈ arange start stop step → f x = FVal.nonfinite) →
      find_root_by_grid f start stop step =
        Except.error GridError.NonFiniteValueError) ∧
    ((∃ x, x ∈ arange start stop step ∧ f x ≠ FVal.nonfinite) →
      ∃ r v i, find_root_by_grid f start stop step = Except.ok (r, v, i) ∧
        i < (arange start stop step).length ∧
        r = (arange start stop step).getD i 0 ∧ v = f r ∧ f r ≠ FVal.nonfinite ∧
        (∀ j, j < (arange start stop step).length → ∀ q,
          magnitude (f ((arange start stop step).getD j 0)) = some q →
          ∃ p, magnitude (f r) = some p ∧ p ≤ q)) := by
  constructor
  · intro hall
    simp only [find_root_by_grid]
    rw [if_neg (not_le.mpr h1), if_neg (not_le.mpr h2), if_neg (not_le.mpr h3)]
    have hm : argminExcl ((arange start stop step).map (fun x => magnitude (f x)))
        = none := by
      rw [argminExcl_eq_none]
      intro y hy
      obtain ⟨x, hx, hxy⟩ := List.mem_map.mp hy
      rw [← hxy, hall x hx]
      rfl
    rw [hm]
  · rintro ⟨x, hx, hfin⟩
    cases hm : argminExcl ((arange start stop step).map (fun y => magnitude (f y))) with
    | none =>
      exfalso
      have hall := argminExcl_eq_none.mp hm
      have hnone := hall _ (List.mem_map_of_mem (fun y => magnitude (f y)) hx)
      dsimp only at hnone
      cases hfx : f x with
      | fin q => rw [hfx] at hnone; simp [magnitude] at hnone
      | nonfinite => exact hfin hfx
    | some p =>
      obtain ⟨i, v⟩ := p
      obtain ⟨hlen, hget, hmin⟩ := argminExcl_spec hm
      rw [List.length_map] at hlen
      have hLd : ∀ j, j < (arange start stop step).length →
          ((arange start stop step).map (fun y => magnitude (f y))).getD j none
            = magnitude (f ((arange start stop step).getD j 0)) := by
        intro j hj
        exact getD_map_of_lt (fun y => magnitude (f y)) _ hj none 0
      have hgi : magnitude (f ((arange start stop step).getD i 0)) = some v := by
        rw [← hLd i hlen]; exact hget
      refine ⟨(arange start stop step).getD i 0,
        f ((arange start stop step).getD i 0), i, ?_, hlen, rfl, rfl, ?_, ?_⟩
      · simp only [find_root_by_grid]
        rw [if_neg (not_le.mpr h1), if_neg (not_le.mpr h2), if_neg (not_le.mpr h3), hm]
      · intro habs
        rw [habs] at hgi
        simp [magnitude] at hgi
      · intro j hj q hq
        refine ⟨v, hgi, ?_⟩
        apply hmin j (by rwa [List.length_map]) q
        rw [hLd j hj]
        exact hq

/-- Witness for C5: at `(0, 1, 1/4)` with `f` everywhere non-finite, the
search fails with `NonFiniteValueError`. -/
theorem C5_witness :
    find_root_by_grid (fun _ => FVal.nonfinite) 0 1 (1/4) =
      Except.error GridError.NonFiniteValueError :=
  (C5_nonfinite_policy (fun _ => FVal.nonfinite) 0 1 (1/4)
    (by norm_num) (by norm_num) (by norm_num)).1 (fun _ _ => rfl)

/-- Witness for C4 at `f = id` and grid `[3, 1, 1, 2]`, whose minimum
`|f| = 1` is tied between indices 1 and 2; the returned index is 1. -/
theorem C4_witness :
    (∀ j, j < ([3, 1, 1, 2] : List ℚ).length →
      |([3, 1, 1, 2] : List ℚ).getD 1 0| = |([3, 1, 1, 2] : List ℚ).getD j 0| →
      1 ≤ j) ∧
    (∀ i', i' < ([3, 1, 1, 2] : List ℚ).length →
      (∀ j, j < ([3, 1, 1, 2] : List ℚ).length →
        |([3, 1, 1, 2] : List ℚ).getD i' 0| ≤ |([3, 1, 1, 2] : List ℚ).getD j 0|) →
      (∀ j, j < i' →
        |([3, 1, 1, 2] : List ℚ).getD i' 0| < |([3, 1, 1, 2] : List ℚ).getD j 0|) →
      i' = 1) :=
  C4_first_occurrence (fun x : ℚ => x) [3, 1, 1, 2] 1 1 1 (by decide)

/-- C7: for `f(x) = x^2 + 1`, which is nonzero everywhere, the grid search
on any non-empty grid returns a result (not an error), and the returned
point minimizes `|x^2+1|`, i.e. it is a grid point closest to 0. -/
theorem C7_never_zero (grid : List ℚ) (hne : grid ≠ []) :
    ∃ r v i, gridRoot (fun x => x ^ 2 + 1) grid = some (r, v, i) ∧
      i < grid.length ∧ r = grid.getD i 0 ∧ v = r ^ 2 + 1 ∧
      ∀ j, j < grid.length → |r| ≤ |grid.getD j 0| := by
  obtain ⟨r, v, i, hsome⟩ := gridRoot_total (fun x => x ^ 2 + 1) hne
  obtain ⟨hlen, hr, hv, hmin, _⟩ := gridRoot_eq_some hsome
  refine ⟨r, v, i, hsome, hlen, hr, by simpa using hv, ?_⟩
  intro j hj
  have hm := hmin j hj
  have habs : ∀ x : ℚ, |x ^ 2 + 1| = x ^ 2 + 1 := fun x => abs_of_pos (by positivity)
  simp only [habs] at hm
  have h2 : r ^ 2 ≤ (grid.getD j 0) ^ 2 := by linarith
  nlinarith [sq_abs r, sq_abs (grid.getD j 0), abs_nonneg r, abs_nonneg (grid.getD j 0)]

/-- Witness for C7 at grid `[2, -1/2, 1]`: the returned point is `-1/2`,
the grid point closest to 0. -/
theorem C7_witness :
    ∃ r v i, gridRoot (fun x => x ^ 2 + 1) [2, -1/2, 1] = some (r, v, i) ∧
      i < ([2, -1/2, 1] : List ℚ).length ∧ r = ([2, -1/2, 1] : List ℚ).getD i 0 ∧
      v = r ^ 2 + 1 ∧
      ∀ j, j < ([2, -1/2, 1] : List ℚ).length →
        |r| ≤ |([2, -1/2, 1] : List ℚ).getD j 0| :=
  C7_never_zero [2, -1/2, 1] (by simp)

/-- C9: the single-expression form `x_grid[abs(f_grid).argmin()]` (used for
`x_root_2`) equals the stepwise form that names `abs_f_grid` and
`x_root_index` before indexing (used for `x_root_1`), for every grid and
same-length value table. -/
theorem C9_forms_equal (x_grid f_grid : List ℚ) (h : f_grid.length = x_grid.length) :
    x_root_1 x_grid f_grid = x_root_2 x_grid f_grid := rfl

/-- Witness for C9 at `x_grid = [5, 6, 7]`, `f_grid = [3, -1, 2]`. -/
theorem C9_witness :
    x_root_1 [5, 6, 7] [3, -1, 2] = x_root_2 [5, 6, 7] [3, -1, 2] :=
  C9_forms_equal [5, 6, 7] [3, -1, 2] rfl

/-- C10: for a non-empty value table of the same length as the grid, the
argmin index is within the grid's bounds, so indexing the grid at it is
safe; on an empty table the argmin has no result. -/
theorem C10_index_in_bounds (f_grid x_grid : List ℚ) (h : f_grid.length = x_grid.length) :
    (∀ i, x_root_index f_grid = some i → i < x_grid.length) ∧
    (f_grid = [] → x_root_index f_grid = none) := by
  constructor
  · intro i hi
    rw [x_root_index] at hi
    have hlt := (argmin?_spec hi).1
    rw [abs_f_grid, List.length_map, h] at hlt
    exact hlt
  · intro he
    subst he
    rfl

set_option maxRecDepth 10000 in
/-- C6: on the script's own demo — `quad_fn` with `a = 1/4, b = 1, c = -1`
over `np.arange(-10, 5, 0.01)` — the grid search returns the grid point
`-4.83` with residual `89/40000 = 0.002225` at index 517; that point
attains the global minimum residual magnitude over the whole grid, lies
within `0.01` of the real root `-2 - 2√2 ≈ -4.828` of `0.25x² + x - 1`,
and the residual is small. -/
theorem C6_quadratic_demo :
    gridRoot (fun x => quad_fn x (1/4) 1 (-1)) (arange (-10) 5 (1/100))
      = some (-483/100, 89/40000, 517) ∧
    (∀ j, j < (arange (-10) 5 (1/100)).length →
      |quad_fn (-483/100) (1/4) 1 (-1)| ≤
      |quad_fn ((arange (-10) 5 (1/100)).getD j 0) (1/4) 1 (-1)|) ∧
    ((1/4 : ℝ) * (-2 - 2 * Real.sqrt 2) ^ 2 + (-2 - 2 * Real.sqrt 2) - 1 = 0) ∧
    |(-483/100 : ℝ) - (-2 - 2 * Real.sqrt 2)| < 1/100 ∧
    |(89/40000 : ℚ)| ≤ 1/100 := by
  have hcomp : gridRoot (fun x => quad_fn x (1/4) 1 (-1)) (arange (-10) 5 (1/100))
      = some (-483/100, 89/40000, 517) := by decide
  have hsq : Real.sqrt 2 ^ 2 = 2 := Real.sq_sqrt (by norm_num)
  have hlo : (1.41 : ℝ) < Real.sqrt 2 := (Real.lt_sqrt (by norm_num)).mpr (by norm_num)
  have hhi : Real.sqrt 2 < 1.42 := (Real.sqrt_lt' (by norm_num)).mpr (by norm_num)
  refine ⟨hcomp, ?_, ?_, ?_, ?_⟩
  · intro j hj
    exact (gridRoot_eq_some hcomp).2.2.2.1 j hj
  · linear_combination hsq
  · rw [abs_lt]
    constructor <;> linarith
  · rw [abs_le]
    constructor <;> norm_num

/-- C8: the grid root approximation is deterministic — both the validated
spec-level routine and the script-level grid search are pure functions, so
two invocations on identical inputs give identical outputs. -/
theorem C8_deterministic (f : ℚ → FVal) (g : ℚ → ℚ) (start stop step : ℚ)
    (grid : List ℚ) :
    find_root_by_grid f start stop step = find_root_by_grid f start stop step ∧
    gridRoot g grid = gridRoot g grid :=
  ⟨rfl, rfl⟩

/-- Witness for C10 at `f_grid = [4, -2, 3]`, `x_grid = [8, 9, 10]`. -/
theorem C10_witness :
    (∀ i, x_root_index [4, -2, 3] = some i → i < ([8, 9, 10] : List ℚ).length) ∧
    (([4, -2, 3] : List ℚ) = [] → x_root_index [4, -2, 3] = none) :=
  C10_index_in_bounds [4, -2, 3] [8, 9, 10] rfl

end ScipySolving
